import Mathlib

/-
Verification of the NSE scanner core (src/server.js).

The JavaScript source is shallowly embedded: JS numbers are modelled as
exact rationals, statuses as the literal strings the code produces,
network I/O as explicit outcome values, the persisted journal as a store
value, and the stable Array.prototype.sort as List.mergeSort (stable)
with the corresponding comparator.
-/

-- Batteries marks rational arithmetic irreducible; restore reducibility so
-- concrete evaluations go through the kernel.
attribute [local semireducible] Rat.add Rat.sub Rat.mul Rat.inv Rat.ofScientific

namespace NseScanner

/-- Embeds the JS String.prototype.toUpperCase (ASCII case map) used on
option sides. -/
def jsToUpperCase (s : String) : String := ⟨s.toList.map Char.toUpper⟩

/-- Embeds the JS String.prototype.trim applied to each discovered symbol. -/
def jsTrim (s : String) : String :=
  ⟨((s.toList.dropWhile Char.isWhitespace).reverse.dropWhile Char.isWhitespace).reverse⟩

/-- Embeds the JS String.prototype.includes substring test used on statuses
in the aggregation loop of runFnoScan. -/
def strIncludes (s pat : String) : Bool := decide (pat.toList <:+: s.toList)

/-- Comparator of the default (comparator-less) JS Array.prototype.sort on
strings: lexicographic order; a may stay before b iff a is not greater. -/
def strLE (a b : String) : Bool := decide (a ≤ b)

/-! ## Result journal (src/server.js lines 63-88)

The backing file either does not exist, exists but does not parse
(JSON.parse throws), or parses to a list of results. -/

/-- State of the JSON backing store read by loadResults. -/
inductive Store (α : Type) where
  | missing
  | corrupt
  | valid (contents : List α)

/-- Embeds loadResults: parsed contents when the file exists and parses,
and an empty journal when the file is missing or JSON.parse throws (the
catch branch logs and falls through to return []). -/
def loadResults {α : Type} : Store α → List α
  | Store.missing => []
  | Store.corrupt => []
  | Store.valid contents => contents

/-- The in-memory core of appendResult: all.unshift(newResult) inserts at
the head and all.splice(30) drops everything beyond position 30. -/
def appendToList {α : Type} (all : List α) (newResult : α) : List α :=
  let l := newResult :: all
  if 30 < l.length then l.take 30 else l

/-- Embeds appendResult: load, insert at head, truncate to 30 (the result
is then saved back, which the pure model returns). -/
def appendResult {α : Type} (store : Store α) (newResult : α) : List α :=
  appendToList (loadResults store) newResult

/-! ## Semaphore (src/server.js lines 100-117)

The JS semaphore holds a numeric count and a FIFO queue of pending
resolvers.  Waiters are modelled by tokens (natural numbers).  acquire
returns the new state plus whether it completed immediately; release
returns the new state plus the waiter woken, if any. -/

/-- State of the JS Semaphore: the count field and the queue of waiting
resolvers (as tokens), in arrival order. -/
structure SemState where
  count : ℕ
  queue : List ℕ
deriving Repr, DecidableEq

namespace Semaphore

/-- Embeds Semaphore.acquire for capacity max: if count < max, increment
count and return immediately (true); otherwise push the caller w onto the
end of the wait queue (false). -/
def acquire (max w : ℕ) (s : SemState) : SemState × Bool :=
  if s.count < max then ({ s with count := s.count + 1 }, true)
  else ({ s with queue := s.queue ++ [w] }, false)

/-- Embeds Semaphore.release: decrement count; if the queue is non-empty,
re-increment count and wake the waiter shifted from the front. -/
def release (s : SemState) : SemState × Option ℕ :=
  let decremented := s.count - 1
  match s.queue with
  | [] => ({ count := decremented, queue := [] }, none)
  | w :: rest => ({ count := decremented + 1, queue := rest }, some w)

/-- States reachable from the initial semaphore state by acquire and
release steps.  The acquire/release pairing protocol (release is only
called by a holder, in the try/finally of getCountsForSymbol) is reflected
by the 0 < count premise of the release step. -/
inductive Reach (max : ℕ) : SemState → Prop where
  | init : Reach max ⟨0, []⟩
  | acq (w : ℕ) {s : SemState} : Reach max s → Reach max (acquire max w s).1
  | rel {s : SemState} : Reach max s → 0 < s.count → Reach max (release s).1

end Semaphore

/-! ## FnO scanner data model (src/server.js lines 123-184) -/

/-- One derivative record of the per-symbol feed, with the numeric fields
read by the scanner.  The JS defensive defaulting (field || 0) is the
identity on these exact rational values. -/
structure DerivRecord where
  instrumentType : String
  expiryDate : String
  optionType : String
  openPrice : ℚ
  highPrice : ℚ
  lowPrice : ℚ
  prevClose : ℚ
  totalTradedVolume : ℚ
deriving Repr, DecidableEq

/-- Embeds getTargetExpiry. -/
def getTargetExpiry : String := "27-Feb-2026"

/-- Embeds checkFutstkCondition (lines 139-146). -/
def checkFutstkCondition (record : DerivRecord) (targetExpiry : String) : Bool :=
  if record.instrumentType ≠ "FUTSTK" ∨ record.expiryDate ≠ targetExpiry then false
  else
    let openPrice := record.openPrice
    let prevClose := record.prevClose
    if prevClose ≤ 0 then false
    else
      let pct := ((openPrice - prevClose) / prevClose) * 100
      decide ((-0.5 : ℚ) ≤ pct ∧ pct ≤ (0.5 : ℚ))

/-- Outcome of the per-symbol axios GET in getCountsForSymbol: a response
with an HTTP status and parsed records, or a thrown error carrying the
error code (ECONNABORTED on timeout) and message. -/
inductive FetchOutcome where
  | ok (httpStatus : ℕ) (records : List DerivRecord)
  | fail (code : String) (message : String)

/-- The 6-tuple returned by getCountsForSymbol, as a structure. -/
structure SymbolResult where
  symbol : String
  callOpenLow : ℕ
  callOpenHigh : ℕ
  putOpenLow : ℕ
  putOpenHigh : ℕ
  status : String
deriving Repr, DecidableEq

/-- One iteration of the counting loop of getCountsForSymbol
(lines 163-177) over the mutable counter quadruple
(callOpenLow, callOpenHigh, putOpenLow, putOpenHigh). -/
def optCountStep (targetExpiry : String) (acc : ℕ × ℕ × ℕ × ℕ) (record : DerivRecord) :
    ℕ × ℕ × ℕ × ℕ :=
  if record.expiryDate ≠ targetExpiry then acc
  else if record.instrumentType ≠ "OPTSTK" then acc
  else if record.openPrice ≤ 0 then acc
  else if record.totalTradedVolume ≤ 0 then acc
  else
    let optionType := jsToUpperCase record.optionType
    if optionType = "CE" then
      (acc.1 + (if record.openPrice = record.lowPrice then 1 else 0),
       acc.2.1 + (if record.openPrice = record.highPrice then 1 else 0),
       acc.2.2.1, acc.2.2.2)
    else if optionType = "PE" then
      (acc.1, acc.2.1,
       acc.2.2.1 + (if record.openPrice = record.lowPrice then 1 else 0),
       acc.2.2.2 + (if record.openPrice = record.highPrice then 1 else 0))
    else acc

/-- Embeds getCountsForSymbol (lines 148-184) as a function of the fetch
outcome.  The source reads the target expiry via getTargetExpiry(); it is
a parameter here, and runFnoScan passes getTargetExpiry.  The semaphore
acquire/release around the body does not affect the returned value. -/
def getCountsForSymbol (symbol targetExpiry : String) (outcome : FetchOutcome) :
    SymbolResult :=
  match outcome with
  | FetchOutcome.fail code message =>
      ⟨symbol, 0, 0, 0, 0,
        if code = "ECONNABORTED" then "Timeout" else "Error: " ++ message⟩
  | FetchOutcome.ok httpStatus records =>
      if httpStatus ≠ 200 then ⟨symbol, 0, 0, 0, 0, "HTTP " ++ toString httpStatus⟩
      else if ¬ (records.any fun r => checkFutstkCondition r targetExpiry) then
        ⟨symbol, 0, 0, 0, 0, "FUTSTK condition not met"⟩
      else
        let c := records.foldl (optCountStep targetExpiry) (0, 0, 0, 0)
        ⟨symbol, c.1, c.2.1, c.2.2.1, c.2.2.2, "Success"⟩

/-! ## Universe discovery (src/server.js lines 123-133) -/

/-- One row of the UnderlyingList JSON array: either an object (with an
optional symbol field) or a non-object value. -/
inductive UnderlyingRow where
  | obj (symbol : Option String)
  | nonObj

/-- The truthiness filter row => typeof row === object && row !== null &&
row.symbol; a present empty string is falsy. -/
def rowHasSymbol : UnderlyingRow → Bool
  | UnderlyingRow.obj (some s) => s ≠ ""
  | UnderlyingRow.obj none => false
  | UnderlyingRow.nonObj => false

/-- The symbol field of a row that passed the filter. -/
def rowSymbol : UnderlyingRow → String
  | UnderlyingRow.obj (some s) => s
  | UnderlyingRow.obj none => ""
  | UnderlyingRow.nonObj => ""

/-- The symbol list built by fetchFnoSymbols from the response rows:
filter to rows with a truthy symbol, trim each symbol, sort ascending
(JS default sort, which is stable; List.mergeSort is the stable sort with
the same comparator). -/
def fnoSymbolsOf (rows : List UnderlyingRow) : List String :=
  (((rows.filter rowHasSymbol).map fun r => jsTrim (rowSymbol r)).mergeSort strLE)

/-- Outcome of the universe-listing axios GET in fetchFnoSymbols. -/
inductive UniverseOutcome where
  | ok (httpStatus : ℕ) (rows : List UnderlyingRow)
  | netFail (message : String)

/-- Embeds fetchFnoSymbols (lines 123-133): a thrown request error
propagates; a non-200 status throws Failed to fetch symbols HTTP n;
otherwise the filtered, trimmed, sorted symbol list is returned. -/
def fetchFnoSymbols : UniverseOutcome → Except String (List String)
  | UniverseOutcome.netFail message => Except.error message
  | UniverseOutcome.ok httpStatus rows =>
      if httpStatus ≠ 200 then
        Except.error ("Failed to fetch symbols HTTP " ++ toString httpStatus)
      else Except.ok (fnoSymbolsOf rows)

/-! ## FnO aggregation and ranking (src/server.js lines 186-234) -/

/-- Entry of the bullish (group1) list: { symbol, ceOL, peOH }. -/
structure BullEntry where
  symbol : String
  ceOL : ℕ
  peOH : ℕ
deriving Repr, DecidableEq

/-- Entry of the bearish (group2) list: { symbol, peOL, ceOH }. -/
structure BearEntry where
  symbol : String
  peOL : ℕ
  ceOH : ℕ
deriving Repr, DecidableEq

/-- The errored-status test of the aggregation loop (line 204):
status.includes HTTP / Timeout / Error. -/
def erroredStatus (status : String) : Bool :=
  strIncludes status "HTTP" || strIncludes status "Timeout" || strIncludes status "Error"

/-- One iteration of the aggregation loop of runFnoScan (lines 203-211)
over (totalScannedSuccessfully, stocksMeetingConditions, group1, group2);
group pushes append at the end, preserving results order. -/
def fnoAccumStep (acc : ℕ × ℕ × List BullEntry × List BearEntry) (r : SymbolResult) :
    ℕ × ℕ × List BullEntry × List BearEntry :=
  if erroredStatus r.status then acc
  else if r.status = "Success" then
    (acc.1 + 1, acc.2.1 + 1,
     acc.2.2.1 ++ [⟨r.symbol, r.callOpenLow, r.putOpenHigh⟩],
     acc.2.2.2 ++ [⟨r.symbol, r.putOpenLow, r.callOpenHigh⟩])
  else (acc.1 + 1, acc.2.1, acc.2.2.1, acc.2.2.2)

/-- The aggregation loop of runFnoScan over the per-symbol results. -/
def fnoAggregate (results : List SymbolResult) : ℕ × ℕ × List BullEntry × List BearEntry :=
  results.foldl fnoAccumStep (0, 0, [], [])

/-- Comparator (a, b) => b.ceOL - a.ceOL of the group1 sort: a may stay
before b iff the comparator is non-positive. -/
def bullLE (a b : BullEntry) : Bool := decide (b.ceOL ≤ a.ceOL)

/-- Comparator (a, b) => b.peOL - a.peOL of the group2 sort. -/
def bearLE (a b : BearEntry) : Bool := decide (b.peOL ≤ a.peOL)

/-- The ScanResult record built by runFnoScan, restricted to its pure
fields (id, scanTimestamp and scanTime are wall-clock-derived and outside
the pure model). -/
structure ScanResult where
  totalSymbols : ℕ
  totalScannedSuccessfully : ℕ
  stocksMeetingConditions : ℕ
  expiry : String
  bullish : List BullEntry
  bearish : List BearEntry
deriving Repr, DecidableEq

/-- Embeds runFnoScan (lines 186-234) as a function of the universe
outcome, the per-symbol fetch outcomes, and the prior FnO journal.  A
failure of fetchFnoSymbols is not caught inside runFnoScan: the error
propagates to the caller before any journal write.  On success the scan
result is appended to the journal. -/
def runFnoScan (uo : UniverseOutcome) (fetch : String → FetchOutcome)
    (journal : List ScanResult) : List ScanResult × Except String ScanResult :=
  match fetchFnoSymbols uo with
  | Except.error e => (journal, Except.error e)
  | Except.ok symbols =>
      let results := symbols.map fun s => getCountsForSymbol s getTargetExpiry (fetch s)
      let agg := fnoAggregate results
      let scanResult : ScanResult :=
        ⟨symbols.length, agg.1, agg.2.1, getTargetExpiry,
         (agg.2.2.1.mergeSort bullLE).take 10, (agg.2.2.2.mergeSort bearLE).take 10⟩
      (appendToList journal scanResult, Except.ok scanResult)

/-! ## Top losers OH scanner (src/server.js lines 268-403) -/

/-- One FOSec stock row of the live-analysis-variations response. -/
structure FoStock where
  symbol : String
  series : String
  open_price : ℚ
  high_price : ℚ
  low_price : ℚ
  ltp : ℚ
  perChange : ℚ
  trade_quantity : ℚ
deriving Repr, DecidableEq

/-- The projected stock entry kept by the losers scan (keys symbol, open,
high, low, ltp, change, volume in the source). -/
structure LoserEntry where
  symbol : String
  openPrice : ℚ
  high : ℚ
  low : ℚ
  ltp : ℚ
  change : ℚ
  volume : ℚ
deriving Repr, DecidableEq

/-- The scan record built by runLosersOHScan, restricted to its pure
fields; errorMsg is the error field present only in the catch branch. -/
structure LosersResult where
  totalFOSecStocks : ℕ
  qualifiedStocks : ℕ
  stocks : List LoserEntry
  errorMsg : Option String
deriving Repr, DecidableEq

/-- Outcome of the losers-scan upstream fetch: parsed FOSec data, or a
thrown error with the optional HTTP response status and message. -/
inductive LosersOutcome where
  | ok (fosec : List FoStock)
  | fail (httpStatus : Option ℕ) (message : String)

/-- Embeds runLosersOHScan (lines 268-403) as a function of the upstream
outcome and the prior losers journal.  On success, FOSec rows with series
EQ and open_price = high_price are kept and the result is appended.  On
any upstream failure the catch branch builds an error-marked empty result,
appends it to the journal, and returns it normally. -/
def runLosersOHScan (outcome : LosersOutcome) (journal : List LosersResult) :
    List LosersResult × LosersResult :=
  match outcome with
  | LosersOutcome.ok fosec =>
      let filteredStocks :=
        (fosec.filter fun stock =>
            stock.series = "EQ" ∧ stock.open_price = stock.high_price).map
          fun stock =>
            (⟨stock.symbol, stock.open_price, stock.high_price, stock.low_price,
              stock.ltp, stock.perChange, stock.trade_quantity⟩ : LoserEntry)
      let scanResult : LosersResult := ⟨fosec.length, filteredStocks.length, filteredStocks, none⟩
      (appendToList journal scanResult, scanResult)
  | LosersOutcome.fail httpStatus message =>
      let errorResult : LosersResult :=
        ⟨0, 0, [],
          some (if httpStatus = some 403 then "Access blocked by NSE" else message)⟩
      (appendToList journal errorResult, errorResult)

/-! ## Scheduler (src/server.js lines 405-448) -/

/-- Embeds FNO_SCAN_TIMES_IST. -/
def FNO_SCAN_TIMES_IST : List (ℕ × ℕ) := [(9, 17), (9, 18), (9, 19), (9, 20), (9, 21)]

/-- Embeds LOSERS_SCAN_TIME_IST. -/
def LOSERS_SCAN_TIME_IST : ℕ × ℕ := (9, 31)

/-- The fixed IST offset 5.5 * 60 * 60 * 1000 in milliseconds. -/
def istOffsetMs : ℕ := 19800000

/-- Embeds getISTHoursMinutes as a function of the host clock in
milliseconds since the Unix epoch: add the IST offset, then read UTC
hours, minutes and weekday (epoch day was a Thursday, weekday 4;
0 = Sunday, 6 = Saturday). -/
def getISTHoursMinutes (nowMs : ℕ) : ℕ × ℕ × ℕ :=
  let ist := nowMs + istOffsetMs
  (ist / 3600000 % 24, ist / 60000 % 60, (ist / 86400000 + 4) % 7)

/-- Embeds one tick of the scheduleScans interval callback (lines
426-442): on weekends nothing fires; otherwise the FnO scan fires iff
some configured FnO time matches the current hour and minute (the .find
truthiness test), and the losers scan fires iff the single losers time
matches.  Returns (fnoFired, losersFired). -/
def scheduleTick (nowMs : ℕ) : Bool × Bool :=
  let hmd := getISTHoursMinutes nowMs
  let h := hmd.1
  let m := hmd.2.1
  let day := hmd.2.2
  if day < 1 ∨ 5 < day then (false, false)
  else
    ((FNO_SCAN_TIMES_IST.find? fun t => t.1 == h && t.2 == m).isSome,
     LOSERS_SCAN_TIME_IST.1 == h && LOSERS_SCAN_TIME_IST.2 == m)

/-! ## Spec-side predicates (written from the specification wording, to be
compared with the embedded source functions) -/

/-- Spec wording of the eligibility gate: a future-on-stock record at the
target expiry whose previous close is strictly positive and whose
opening-price deviation (open - prevClose) / prevClose * 100 lies in
[-0.5, +0.5] inclusive. -/
def specEligibleFuture (r : DerivRecord) (targetExpiry : String) : Prop :=
  r.instrumentType = "FUTSTK" ∧ r.expiryDate = targetExpiry ∧ 0 < r.prevClose ∧
    (-0.5 : ℚ) ≤ (r.openPrice - r.prevClose) / r.prevClose * 100 ∧
    (r.openPrice - r.prevClose) / r.prevClose * 100 ≤ (0.5 : ℚ)

/-- Spec wording of the counting-rule domain: an option-on-stock record at
the target expiry with opening price > 0 and traded volume > 0. -/
def specCountedOption (r : DerivRecord) (targetExpiry : String) : Bool :=
  (r.instrumentType == "OPTSTK") && (r.expiryDate == targetExpiry) &&
    decide (0 < r.openPrice) && decide (0 < r.totalTradedVolume)

/-- Call side, per the source normalization of the optionType field. -/
def isCallSide (r : DerivRecord) : Bool := jsToUpperCase r.optionType == "CE"

/-- Put side, per the source normalization of the optionType field. -/
def isPutSide (r : DerivRecord) : Bool := jsToUpperCase r.optionType == "PE"

/-- Spec wording: a counted call record increments call-open-low when its
opening price exactly equals its low price. -/
def countsCallLow (r : DerivRecord) (t : String) : Bool :=
  specCountedOption r t && isCallSide r && decide (r.openPrice = r.lowPrice)

/-- Spec wording: a counted call record increments call-open-high when its
opening price exactly equals its high price. -/
def countsCallHigh (r : DerivRecord) (t : String) : Bool :=
  specCountedOption r t && isCallSide r && decide (r.openPrice = r.highPrice)

/-- Spec wording: a counted put record increments put-open-low when its
opening price exactly equals its low price. -/
def countsPutLow (r : DerivRecord) (t : String) : Bool :=
  specCountedOption r t && isPutSide r && decide (r.openPrice = r.lowPrice)

/-- Spec wording: a counted put record increments put-open-high when its
opening price exactly equals its high price. -/
def countsPutHigh (r : DerivRecord) (t : String) : Bool :=
  specCountedOption r t && isPutSide r && decide (r.openPrice = r.highPrice)

/-- A result counted as scanned successfully by the aggregation loop: its
status passes the errored-status test. -/
def resultScanned (r : SymbolResult) : Bool := !erroredStatus r.status

/-- A result counted as qualified by the aggregation loop: not errored
and status exactly Success. -/
def resultSuccess (r : SymbolResult) : Bool :=
  !erroredStatus r.status && (r.status == "Success")

/-- The bullish entry pushed for a qualified result. -/
def toBull (r : SymbolResult) : BullEntry := ⟨r.symbol, r.callOpenLow, r.putOpenHigh⟩

/-- The bearish entry pushed for a qualified result. -/
def toBear (r : SymbolResult) : BearEntry := ⟨r.symbol, r.putOpenLow, r.callOpenHigh⟩

/-! ## Journal lemmas -/

theorem appendToList_eq_take {α : Type} (all : List α) (newResult : α) :
    appendToList all newResult = (newResult :: all).take 30 := by
  by_cases h : 30 < (newResult :: all).length
  · simp [appendToList, h]
  · simp [appendToList, h, List.take_of_length_le (Nat.le_of_not_lt h)]

theorem appendToList_length_le {α : Type} (all : List α) (newResult : α) :
    (appendToList all newResult).length ≤ 30 := by
  rw [appendToList_eq_take]
  simp only [List.length_take]
  omega

theorem take_append_take {α : Type} (A B : List α) (n : ℕ) :
    (A ++ B.take n).take n = (A ++ B).take n := by
  rw [List.take_append_eq_append_take, List.take_append_eq_append_take, List.take_take]
  congr 2
  omega

theorem foldl_appendToList {α : Type} :
    ∀ (xs acc : List α), acc.length ≤ 30 →
      xs.foldl appendToList acc = (xs.reverse ++ acc).take 30
  | [], acc, h => by simpa using (List.take_of_length_le h).symm
  | x :: xs, acc, h => by
    rw [List.foldl_cons,
      foldl_appendToList xs (appendToList acc x) (appendToList_length_le acc x),
      appendToList_eq_take, take_append_take, List.reverse_cons, List.append_assoc,
      List.singleton_append]

/-- Claim C6: appendResult inserts the new result at the head and
truncates to at most 30 entries; the length bound is an invariant, and
appending a sequence of results to the empty journal keeps exactly the
30 most recent in newest-first order, so 31 sequential appends evict
exactly the earliest result. -/
theorem journal_append_spec :
    (∀ (α : Type) (all : List α) (newResult : α),
        appendToList all newResult = (newResult :: all).take 30)
    ∧ (∀ (α : Type) (all : List α) (newResult : α),
        (appendToList all newResult).length ≤ 30)
    ∧ (∀ (α : Type) (results : List α),
        results.foldl appendToList [] = results.reverse.take 30)
    ∧ (∀ (α : Type) (results : List α), results.length = 31 →
        results.foldl appendToList [] = (results.drop 1).reverse) := by
  refine ⟨fun α => appendToList_eq_take, fun α => appendToList_length_le, ?_, ?_⟩
  · intro α results
    simpa using foldl_appendToList results [] (by simp)
  · intro α results h
    have h30 := foldl_appendToList results [] (by simp)
    simp only [List.append_nil] at h30
    rw [h30, List.take_reverse, h]

/-- Witness for C6: 31 sequential appends of 0, ..., 30 to the empty
journal retain exactly 1, ..., 30, newest first. -/
theorem journal_append_spec_witness :
    (List.range 31).foldl appendToList [] = ((List.range 31).drop 1).reverse :=
  journal_append_spec.2.2.2 ℕ (List.range 31) (by simp)

/-- Claim C7: loadResults returns the parsed contents for a store that
exists and parses, and the empty journal for a missing or corrupt store;
appendResult over a missing or corrupt store therefore yields a
one-element journal. -/
theorem journal_load_bad_store_spec :
    (∀ (α : Type), loadResults (Store.missing : Store α) = [])
    ∧ (∀ (α : Type), loadResults (Store.corrupt : Store α) = [])
    ∧ (∀ (α : Type) (contents : List α), loadResults (Store.valid contents) = contents)
    ∧ (∀ (α : Type) (newResult : α), appendResult Store.missing newResult = [newResult])
    ∧ (∀ (α : Type) (newResult : α), appendResult Store.corrupt newResult = [newResult]) :=
  ⟨fun _ => rfl, fun _ => rfl, fun _ _ => rfl, fun _ _ => rfl, fun _ _ => rfl⟩

/-! ## Semaphore lemmas -/

theorem semReach_count_le (max : ℕ) :
    ∀ s : SemState, Semaphore.Reach max s → s.count ≤ max := by
  intro s h
  induction h with
  | init => exact Nat.zero_le max
  | acq w h ih =>
    rename_i s'
    by_cases hc : s'.count < max
    · simp only [Semaphore.acquire, if_pos hc]
      omega
    · simpa only [Semaphore.acquire, if_neg hc] using ih
  | rel h hc ih =>
    rename_i s'
    cases hq : s'.queue with
    | nil =>
      simp only [Semaphore.release, hq]
      omega
    | cons w rest =>
      simp only [Semaphore.release, hq]
      omega

/-- Claim C5: in every state reachable under the acquire/release pairing
protocol the holder count never exceeds the capacity; acquire completes
immediately exactly when fewer than max holders exist and otherwise
appends the caller to the FIFO wait queue; release with a non-empty wait
queue wakes exactly the queue head (the longest-waiting caller) and hands
the count over directly (net count unchanged). -/
theorem semaphore_gate_spec (max : ℕ) :
    (∀ s : SemState, Semaphore.Reach max s → s.count ≤ max)
    ∧ (∀ (w : ℕ) (s : SemState), s.count < max →
        Semaphore.acquire max w s = ({ s with count := s.count + 1 }, true))
    ∧ (∀ (w : ℕ) (s : SemState), ¬ s.count < max →
        Semaphore.acquire max w s = ({ s with queue := s.queue ++ [w] }, false))
    ∧ (∀ (s : SemState) (w : ℕ) (rest : List ℕ), 0 < s.count → s.queue = w :: rest →
        Semaphore.release s = (⟨s.count, rest⟩, some w)) := by
  refine ⟨semReach_count_le max, ?_, ?_, ?_⟩
  · intro w s h
    simp [Semaphore.acquire, h]
  · intro w s h
    simp [Semaphore.acquire, h]
  · intro s w rest hc hq
    simp only [Semaphore.release, hq]
    refine Prod.ext ?_ rfl
    simp only []
    congr 1
    omega

/-- Witness for C5 at capacity 1: one acquire fills the semaphore, a
second acquire queues, and release hands the slot to the queued waiter. -/
theorem semaphore_gate_spec_witness :
    (Semaphore.acquire 1 7 ⟨0, []⟩).1.count ≤ 1
    ∧ Semaphore.acquire 1 7 ⟨0, []⟩ = (⟨1, []⟩, true)
    ∧ Semaphore.acquire 1 8 ⟨1, []⟩ = (⟨1, [8]⟩, false)
    ∧ Semaphore.release ⟨1, [8]⟩ = (⟨1, []⟩, some 8) := by
  obtain ⟨h1, h2, h3, h4⟩ := semaphore_gate_spec 1
  exact ⟨h1 _ (Semaphore.Reach.acq 7 Semaphore.Reach.init),
    h2 7 ⟨0, []⟩ (by decide), h3 8 ⟨1, []⟩ (by decide), h4 ⟨1, [8]⟩ 8 [] (by decide) rfl⟩

/-! ## Scheduler lemmas -/

theorem scheduleTick_eq (nowMs : ℕ) :
    scheduleTick nowMs =
      if (getISTHoursMinutes nowMs).2.2 < 1 ∨ 5 < (getISTHoursMinutes nowMs).2.2 then
        (false, false)
      else
        ((FNO_SCAN_TIMES_IST.find? fun t =>
            t.1 == (getISTHoursMinutes nowMs).1 && t.2 == (getISTHoursMinutes nowMs).2.1).isSome,
         LOSERS_SCAN_TIME_IST.1 == (getISTHoursMinutes nowMs).1 &&
           LOSERS_SCAN_TIME_IST.2 == (getISTHoursMinutes nowMs).2.1) := rfl

/-- Claim C9: with local time obtained by adding the fixed IST offset to
the host clock, no scan fires on Saturday (weekday 6) or Sunday (weekday
0); on a weekday the FnO scan fires exactly when the local (hour, minute)
matches a configured FnO trigger time and the losers scan exactly when it
matches the losers trigger time.  Concretely, local Saturday 09:20 fires
nothing and local Wednesday 09:20 fires exactly the FnO scan. -/
theorem scheduler_trigger_spec :
    (∀ nowMs : ℕ,
        (getISTHoursMinutes nowMs).2.2 = 0 ∨ (getISTHoursMinutes nowMs).2.2 = 6 →
        scheduleTick nowMs = (false, false))
    ∧ (∀ nowMs : ℕ, 1 ≤ (getISTHoursMinutes nowMs).2.2 →
        (getISTHoursMinutes nowMs).2.2 ≤ 5 →
        (((scheduleTick nowMs).1 = true ↔
            ((getISTHoursMinutes nowMs).1, (getISTHoursMinutes nowMs).2.1) ∈ FNO_SCAN_TIMES_IST)
          ∧ ((scheduleTick nowMs).2 = true ↔
            ((getISTHoursMinutes nowMs).1, (getISTHoursMinutes nowMs).2.1) = LOSERS_SCAN_TIME_IST)))
    ∧ scheduleTick 186600000 = (false, false)
    ∧ scheduleTick 532200000 = (true, false) := by
  refine ⟨?_, ?_, by decide, by decide⟩
  · intro nowMs h
    rw [scheduleTick_eq, if_pos]
    omega
  · intro nowMs h1 h5
    rw [scheduleTick_eq, if_neg (by omega)]
    constructor
    · simp only [List.find?_isSome]
      constructor
      · rintro ⟨⟨a, b⟩, hmem, hp⟩
        simp only [Bool.and_eq_true, beq_iff_eq] at hp
        obtain ⟨rfl, rfl⟩ := hp
        exact hmem
      · intro hm
        exact ⟨_, hm, by simp⟩
    · simp only [LOSERS_SCAN_TIME_IST, Bool.and_eq_true, beq_iff_eq, Prod.mk.injEq]
      constructor
      · rintro ⟨ha, hb⟩
        exact ⟨ha.symm, hb.symm⟩
      · rintro ⟨ha, hb⟩
        exact ⟨ha.symm, hb.symm⟩

/-- Witness for C9: the Saturday check fires nothing, and the Wednesday
09:20 check fires the FnO scan. -/
theorem scheduler_trigger_spec_witness :
    scheduleTick 186600000 = (false, false) ∧ (scheduleTick 532200000).1 = true := by
  obtain ⟨h1, h2, _, _⟩ := scheduler_trigger_spec
  refine ⟨h1 186600000 (by decide), ?_⟩
  exact (h2 532200000 (by decide) (by decide)).1.mpr (by decide)

/-! ## Fatal-failure behaviour of the two scan runs -/

/-- Counterexample to C8 as stated: for the losers scan category an
upstream fetch failure does not leave the journal unchanged — the catch
branch of runLosersOHScan appends an error-marked empty result to the
losers journal (and returns it normally instead of surfacing an error). -/
theorem fatal_failure_atomicity_cex :
    (runLosersOHScan (LosersOutcome.fail none "network down") []).1
        = [⟨0, 0, [], some "network down"⟩]
    ∧ (runLosersOHScan (LosersOutcome.fail none "network down") []).1
        ≠ ([] : List LosersResult) := by
  exact ⟨rfl, by decide⟩

/-- Claim C8 (amended): for the FnO scan, a universe-stage failure (a
thrown request error, or a non-200 status) surfaces an error to the
caller and leaves the FnO journal unchanged; for the losers scan, an
upstream failure is caught, an error-marked empty result is appended to
the losers journal, and that result is returned normally to the caller. -/
theorem fatal_failure_atomicity_amended :
    (∀ (fetch : String → FetchOutcome) (journal : List ScanResult) (message : String),
        runFnoScan (UniverseOutcome.netFail message) fetch journal
          = (journal, Except.error message))
    ∧ (∀ (fetch : String → FetchOutcome) (journal : List ScanResult)
          (httpStatus : ℕ) (rows : List UnderlyingRow), httpStatus ≠ 200 →
        runFnoScan (UniverseOutcome.ok httpStatus rows) fetch journal
          = (journal,
             Except.error ("Failed to fetch symbols HTTP " ++ toString httpStatus)))
    ∧ (∀ (journal : List LosersResult) (httpStatus : Option ℕ) (message : String),
        runLosersOHScan (LosersOutcome.fail httpStatus message) journal
          = (appendToList journal
               ⟨0, 0, [],
                some (if httpStatus = some 403 then "Access blocked by NSE" else message)⟩,
             ⟨0, 0, [],
              some (if httpStatus = some 403 then "Access blocked by NSE" else message)⟩)) := by
  refine ⟨fun fetch journal message => rfl, ?_, fun journal httpStatus message => rfl⟩
  intro fetch journal httpStatus rows h
  simp only [runFnoScan, fetchFnoSymbols, if_pos h]

/-- Witness for C8 (amended): a concrete non-200 universe response leaves
a concrete FnO journal unchanged and surfaces the HTTP error. -/
theorem fatal_failure_atomicity_amended_witness :
    runFnoScan (UniverseOutcome.ok 403 []) (fun _ => FetchOutcome.fail "x" "y")
        [⟨0, 0, 0, "27-Feb-2026", [], []⟩]
      = ([⟨0, 0, 0, "27-Feb-2026", [], []⟩],
         Except.error ("Failed to fetch symbols HTTP " ++ toString 403)) :=
  fatal_failure_atomicity_amended.2.1 (fun _ => FetchOutcome.fail "x" "y")
    [⟨0, 0, 0, "27-Feb-2026", [], []⟩] 403 [] (by decide)

/-! ## Eligibility-gate lemmas -/

theorem checkFutstk_iff (r : DerivRecord) (t : String) :
    checkFutstkCondition r t = true ↔ specEligibleFuture r t := by
  simp only [checkFutstkCondition, specEligibleFuture]
  split_ifs with h1 h2
  · simp only [Bool.false_eq_true, false_iff]
    rintro ⟨ha, hb, -⟩
    rcases h1 with h | h
    · exact h ha
    · exact h hb
  · simp only [Bool.false_eq_true, false_iff]
    rintro ⟨-, -, hc, -⟩
    exact absurd hc (not_lt.mpr h2)
  · push_neg at h1
    rw [decide_eq_true_eq]
    constructor
    · rintro ⟨ha, hb⟩
      exact ⟨h1.1, h1.2, not_le.mp h2, ha, hb⟩
    · rintro ⟨-, -, -, ha, hb⟩
      exact ⟨ha, hb⟩

/-- Claim C1: eligibility of a record list holds iff some record is a
future-on-stock at the target expiry with strictly positive previous
close and opening-price deviation in [-0.5, +0.5] inclusive; a deviation
of exactly +0.5 or -0.5 percent qualifies, +0.51 or -0.51 does not; and
with no such record the classification is the FUTSTK-condition-not-met
status with all four counters zero. -/
theorem futstk_eligibility_spec :
    (∀ (records : List DerivRecord) (targetExpiry : String),
        (records.any fun r => checkFutstkCondition r targetExpiry) = true ↔
          ∃ r ∈ records, specEligibleFuture r targetExpiry)
    ∧ checkFutstkCondition ⟨"FUTSTK", "27-Feb-2026", "", 100.5, 0, 0, 100, 0⟩ "27-Feb-2026" = true
    ∧ checkFutstkCondition ⟨"FUTSTK", "27-Feb-2026", "", 99.5, 0, 0, 100, 0⟩ "27-Feb-2026" = true
    ∧ checkFutstkCondition ⟨"FUTSTK", "27-Feb-2026", "", 100.51, 0, 0, 100, 0⟩ "27-Feb-2026"
        = false
    ∧ checkFutstkCondition ⟨"FUTSTK", "27-Feb-2026", "", 99.49, 0, 0, 100, 0⟩ "27-Feb-2026"
        = false
    ∧ (∀ (symbol targetExpiry : String) (records : List DerivRecord),
        (∀ r ∈ records, ¬ specEligibleFuture r targetExpiry) →
        getCountsForSymbol symbol targetExpiry (FetchOutcome.ok 200 records)
          = ⟨symbol, 0, 0, 0, 0, "FUTSTK condition not met"⟩) := by
  refine ⟨?_, by decide, by decide, by decide, by decide, ?_⟩
  · intro records t
    rw [List.any_eq_true]
    constructor
    · rintro ⟨r, hr, hc⟩
      exact ⟨r, hr, (checkFutstk_iff r t).mp hc⟩
    · rintro ⟨r, hr, hs⟩
      exact ⟨r, hr, (checkFutstk_iff r t).mpr hs⟩
  · intro symbol t records h
    have hfalse : (records.any fun r => checkFutstkCondition r t) = false := by
      rw [List.any_eq_false]
      intro r hr hc
      exact h r hr ((checkFutstk_iff r t).mp hc)
    simp [getCountsForSymbol, hfalse]

/-- Witness for C1: a zero-deviation future record makes a list eligible,
and an empty record list yields the not-met classification with zero
counters. -/
theorem futstk_eligibility_spec_witness :
    ([(⟨"FUTSTK", "27-Feb-2026", "", 100, 0, 0, 100, 0⟩ : DerivRecord)].any fun r =>
        checkFutstkCondition r "27-Feb-2026") = true
    ∧ getCountsForSymbol "BBB" "27-Feb-2026" (FetchOutcome.ok 200 [])
        = ⟨"BBB", 0, 0, 0, 0, "FUTSTK condition not met"⟩ := by
  refine ⟨(futstk_eligibility_spec.1 _ "27-Feb-2026").mpr ?_, ?_⟩
  · exact ⟨⟨"FUTSTK", "27-Feb-2026", "", 100, 0, 0, 100, 0⟩, by simp,
      rfl, rfl, by decide, by decide, by decide⟩
  · exact futstk_eligibility_spec.2.2.2.2.2 "BBB" "27-Feb-2026" [] (by simp)

/-! ## Counting-rule lemmas -/

theorem optCountStep_components (t : String) (a b c d : ℕ) (r : DerivRecord) :
    optCountStep t (a, b, c, d) r =
      (a + (if countsCallLow r t then 1 else 0),
       b + (if countsCallHigh r t then 1 else 0),
       c + (if countsPutLow r t then 1 else 0),
       d + (if countsPutHigh r t then 1 else 0)) := by
  simp only [optCountStep, countsCallLow, countsCallHigh, countsPutLow, countsPutHigh,
    specCountedOption, isCallSide, isPutSide]
  by_cases h1 : r.expiryDate = t
  case neg => simp [h1]
  all_goals by_cases h2 : r.instrumentType = "OPTSTK"
  case neg => simp [h1, h2]
  all_goals by_cases h3 : r.openPrice ≤ 0
  case pos => simp [h1, h2, h3, not_lt.mpr h3]
  all_goals by_cases h4 : r.totalTradedVolume ≤ 0
  case pos => simp [h1, h2, h3, h4, not_lt.mpr h4, not_le.mp h3]
  all_goals by_cases h5 : jsToUpperCase r.optionType = "CE"
  case pos => simp [h1, h2, h3, h4, h5, not_le.mp h3, not_le.mp h4]
  all_goals by_cases h6 : jsToUpperCase r.optionType = "PE"
  case pos => simp [h1, h2, h3, h4, h5, h6, not_le.mp h3, not_le.mp h4]
  case neg => simp [h1, h2, h3, h4, h5, h6, not_le.mp h3, not_le.mp h4]

theorem foldl_optCountStep (t : String) :
    ∀ (records : List DerivRecord) (a b c d : ℕ),
      records.foldl (optCountStep t) (a, b, c, d) =
        (a + (records.countP fun r => countsCallLow r t),
         b + (records.countP fun r => countsCallHigh r t),
         c + (records.countP fun r => countsPutLow r t),
         d + (records.countP fun r => countsPutHigh r t))
  | [], a, b, c, d => by simp
  | r :: rs, a, b, c, d => by
    rw [List.foldl_cons, optCountStep_components, foldl_optCountStep t rs]
    simp only [List.countP_cons, Prod.mk.injEq]
    refine ⟨?_, ?_, ?_, ?_⟩ <;> omega

/-- Claim C2: for an eligible ticker the counting loop counts exactly the
option-on-stock records at the target expiry with positive opening price
and positive traded volume: each side counter equals the number of such
records of that side whose opening price exactly equals the low
(respectively high) price, so the call and put counters are independent,
and one record whose opening price equals both low and high increments
both counters of its side. -/
theorem option_counting_spec :
    (∀ (records : List DerivRecord) (targetExpiry : String),
        records.foldl (optCountStep targetExpiry) (0, 0, 0, 0) =
          ((records.filter fun r => countsCallLow r targetExpiry).length,
           (records.filter fun r => countsCallHigh r targetExpiry).length,
           (records.filter fun r => countsPutLow r targetExpiry).length,
           (records.filter fun r => countsPutHigh r targetExpiry).length))
    ∧ [(⟨"OPTSTK", "27-Feb-2026", "CE", 5, 5, 5, 1, 10⟩ : DerivRecord)].foldl
        (optCountStep "27-Feb-2026") (0, 0, 0, 0) = (1, 1, 0, 0)
    ∧ [(⟨"OPTSTK", "27-Feb-2026", "pe", 5, 5, 5, 1, 10⟩ : DerivRecord)].foldl
        (optCountStep "27-Feb-2026") (0, 0, 0, 0) = (0, 0, 1, 1)
    ∧ (∀ (symbol targetExpiry : String) (records : List DerivRecord),
        (records.any fun r => checkFutstkCondition r targetExpiry) = true →
        getCountsForSymbol symbol targetExpiry (FetchOutcome.ok 200 records)
          = ⟨symbol,
             (records.filter fun r => countsCallLow r targetExpiry).length,
             (records.filter fun r => countsCallHigh r targetExpiry).length,
             (records.filter fun r => countsPutLow r targetExpiry).length,
             (records.filter fun r => countsPutHigh r targetExpiry).length,
             "Success"⟩) := by
  refine ⟨?_, by decide, by decide, ?_⟩
  · intro records t
    rw [foldl_optCountStep t records 0 0 0 0]
    simp [List.countP_eq_length_filter]
  · intro symbol t records hany
    have hc := foldl_optCountStep t records 0 0 0 0
    simp only [Nat.zero_add] at hc
    simp only [Prod.mk_zero_zero] at hc
    simp [getCountsForSymbol, hany, hc, List.countP_eq_length_filter]

/-- Witness for C2: a concrete eligible ticker whose single call record
has opening price equal to both low and high gets status Success with
both call counters incremented. -/
theorem option_counting_spec_witness :
    getCountsForSymbol "AAA" "27-Feb-2026"
        (FetchOutcome.ok 200
          [⟨"FUTSTK", "27-Feb-2026", "", 100, 0, 0, 100, 0⟩,
           ⟨"OPTSTK", "27-Feb-2026", "CE", 5, 5, 5, 1, 10⟩])
      = ⟨"AAA",
         ([⟨"FUTSTK", "27-Feb-2026", "", 100, 0, 0, 100, 0⟩,
           ⟨"OPTSTK", "27-Feb-2026", "CE", 5, 5, 5, 1, 10⟩].filter fun r =>
             countsCallLow r "27-Feb-2026").length,
         ([⟨"FUTSTK", "27-Feb-2026", "", 100, 0, 0, 100, 0⟩,
           ⟨"OPTSTK", "27-Feb-2026", "CE", 5, 5, 5, 1, 10⟩].filter fun r =>
             countsCallHigh r "27-Feb-2026").length,
         ([⟨"FUTSTK", "27-Feb-2026", "", 100, 0, 0, 100, 0⟩,
           ⟨"OPTSTK", "27-Feb-2026", "CE", 5, 5, 5, 1, 10⟩].filter fun r =>
             countsPutLow r "27-Feb-2026").length,
         ([⟨"FUTSTK", "27-Feb-2026", "", 100, 0, 0, 100, 0⟩,
           ⟨"OPTSTK", "27-Feb-2026", "CE", 5, 5, 5, 1, 10⟩].filter fun r =>
             countsPutHigh r "27-Feb-2026").length,
         "Success"⟩ :=
  option_counting_spec.2.2.2 "AAA" "27-Feb-2026" _ (by decide)

/-! ## Status-string lemmas -/

theorem strIncludes_append (s msg p : String) (h : p.toList <+: s.toList) :
    strIncludes (s ++ msg) p = true := by
  simp only [strIncludes, decide_eq_true_eq]
  obtain ⟨rest, hrest⟩ := h
  refine ⟨[], rest ++ msg.toList, ?_⟩
  simp only [List.nil_append]
  rw [← List.append_assoc, hrest]
  simp [String.toList, String.data_append]

theorem erroredStatus_http (s : String) : erroredStatus ("HTTP " ++ s) = true := by
  simp [erroredStatus, strIncludes_append "HTTP " s "HTTP" (by decide)]

theorem erroredStatus_error (m : String) : erroredStatus ("Error: " ++ m) = true := by
  simp [erroredStatus, strIncludes_append "Error: " m "Error" (by decide)]

theorem http_ne_success (s : String) : "HTTP " ++ s ≠ "Success" := by
  intro h
  have := congrArg String.data h
  simp [String.data_append] at this

theorem http_ne_notmet (s : String) : "HTTP " ++ s ≠ "FUTSTK condition not met" := by
  intro h
  have := congrArg String.data h
  simp [String.data_append] at this

theorem error_ne_success (m : String) : "Error: " ++ m ≠ "Success" := by
  intro h
  have := congrArg String.data h
  simp [String.data_append] at this

theorem error_ne_notmet (m : String) : "Error: " ++ m ≠ "FUTSTK condition not met" := by
  intro h
  have := congrArg String.data h
  simp [String.data_append] at this

/-- Every status produced by getCountsForSymbol is either errored (and
then neither Success nor FUTSTK condition not met) or not errored (and
then exactly one of those two). -/
theorem getCounts_trichotomy (symbol t : String) (o : FetchOutcome) :
    (erroredStatus (getCountsForSymbol symbol t o).status = true
        ∧ (getCountsForSymbol symbol t o).status ≠ "Success"
        ∧ (getCountsForSymbol symbol t o).status ≠ "FUTSTK condition not met")
    ∨ (erroredStatus (getCountsForSymbol symbol t o).status = false
        ∧ ((getCountsForSymbol symbol t o).status = "Success"
            ∨ (getCountsForSymbol symbol t o).status = "FUTSTK condition not met")) := by
  rcases o with ⟨st, records⟩ | ⟨code, msg⟩
  · by_cases h200 : st ≠ 200
    · left
      simp only [getCountsForSymbol, if_pos h200]
      exact ⟨erroredStatus_http _, http_ne_success _, http_ne_notmet _⟩
    · push_neg at h200
      subst h200
      by_cases hany : (records.any fun r => checkFutstkCondition r t) = true
      · right
        have hst : (getCountsForSymbol symbol t (FetchOutcome.ok 200 records)).status
            = "Success" := by
          simp [getCountsForSymbol, hany]
        rw [hst]
        exact ⟨by decide, Or.inl rfl⟩
      · right
        rw [Bool.not_eq_true] at hany
        have hst : (getCountsForSymbol symbol t (FetchOutcome.ok 200 records)).status
            = "FUTSTK condition not met" := by
          simp [getCountsForSymbol, hany]
        rw [hst]
        exact ⟨by decide, Or.inr rfl⟩
  · by_cases hcode : code = "ECONNABORTED"
    · subst hcode
      left
      have hst : (getCountsForSymbol symbol t
          (FetchOutcome.fail "ECONNABORTED" msg)).status = "Timeout" := rfl
      rw [hst]
      exact ⟨by decide, by decide, by decide⟩
    · left
      simp only [getCountsForSymbol, if_neg hcode]
      exact ⟨erroredStatus_error _, error_ne_success _, error_ne_notmet _⟩

/-! ## Aggregation-loop lemmas -/

theorem fnoAccumStep_eq (n m : ℕ) (g1 : List BullEntry) (g2 : List BearEntry)
    (r : SymbolResult) :
    fnoAccumStep (n, m, g1, g2) r =
      (n + (if resultScanned r then 1 else 0),
       m + (if resultSuccess r then 1 else 0),
       g1 ++ (if resultSuccess r then [toBull r] else []),
       g2 ++ (if resultSuccess r then [toBear r] else [])) := by
  have e1 : erroredStatus "Success" = false := by decide
  by_cases he : erroredStatus r.status = true
  · simp [fnoAccumStep, resultScanned, resultSuccess, he]
  · rw [Bool.not_eq_true] at he
    by_cases hs : r.status = "Success"
    · simp [fnoAccumStep, resultScanned, resultSuccess, he, hs, e1, toBull, toBear]
    · simp [fnoAccumStep, resultScanned, resultSuccess, he, hs]

theorem foldl_fnoAccumStep :
    ∀ (results : List SymbolResult) (n m : ℕ) (g1 : List BullEntry) (g2 : List BearEntry),
      results.foldl fnoAccumStep (n, m, g1, g2) =
        (n + results.countP resultScanned,
         m + results.countP resultSuccess,
         g1 ++ (results.filter resultSuccess).map toBull,
         g2 ++ (results.filter resultSuccess).map toBear)
  | [], n, m, g1, g2 => by simp
  | r :: rs, n, m, g1, g2 => by
    rw [List.foldl_cons, fnoAccumStep_eq, foldl_fnoAccumStep rs]
    have himp : resultSuccess r = true → resultScanned r = true := by
      simp only [resultSuccess, Bool.and_eq_true]
      exact fun h => h.1
    cases hs : resultSuccess r with
    | true =>
      have hsc := himp hs
      refine Prod.ext ?_ (Prod.ext ?_ (Prod.ext ?_ ?_)) <;>
        simp [List.countP_cons, List.filter_cons, hs, hsc, List.append_assoc] <;> omega
    | false =>
      cases hsc : resultScanned r with
      | true =>
        refine Prod.ext ?_ (Prod.ext ?_ (Prod.ext ?_ ?_)) <;>
          simp [List.countP_cons, List.filter_cons, hs, hsc] <;> omega
      | false =>
        refine Prod.ext ?_ (Prod.ext ?_ (Prod.ext ?_ ?_)) <;>
          simp [List.countP_cons, List.filter_cons, hs, hsc] <;> omega

theorem fnoAggregate_eq (results : List SymbolResult) :
    fnoAggregate results =
      (results.countP resultScanned, results.countP resultSuccess,
       (results.filter resultSuccess).map toBull,
       (results.filter resultSuccess).map toBear) := by
  simpa using foldl_fnoAccumStep results 0 0 [] []

/-- Claim C3: over the per-ticker results actually produced by
getCountsForSymbol, the aggregation loop counts as scanned exactly the
results whose status is Success or FUTSTK condition not met and as
qualified exactly those with status Success; errored statuses (HTTP n,
Timeout, Error: m) are excluded from both totals; an aborted (timeout)
fetch yields status Timeout with all counters zero and is errored; and
qualified is at most scanned, which is at most the universe size. -/
theorem scan_partition_spec :
    ∀ (inputs : List (String × FetchOutcome)) (targetExpiry : String)
      (results : List SymbolResult),
      results = inputs.map (fun p => getCountsForSymbol p.1 targetExpiry p.2) →
      ((fnoAggregate results).1
          = (results.filter fun r =>
              r.status == "Success" || r.status == "FUTSTK condition not met").length
        ∧ (fnoAggregate results).2.1
          = (results.filter fun r => r.status == "Success").length
        ∧ (∀ r ∈ results, erroredStatus r.status = false ↔
            (r.status = "Success" ∨ r.status = "FUTSTK condition not met"))
        ∧ (∀ (symbol message : String),
            getCountsForSymbol symbol targetExpiry
                (FetchOutcome.fail "ECONNABORTED" message)
              = ⟨symbol, 0, 0, 0, 0, "Timeout"⟩ ∧ erroredStatus "Timeout" = true)
        ∧ (fnoAggregate results).2.1 ≤ (fnoAggregate results).1
        ∧ (fnoAggregate results).1 ≤ inputs.length) := by
  intro inputs t results hres
  have htri : ∀ r ∈ results,
      (erroredStatus r.status = true ∧ r.status ≠ "Success"
          ∧ r.status ≠ "FUTSTK condition not met")
      ∨ (erroredStatus r.status = false
          ∧ (r.status = "Success" ∨ r.status = "FUTSTK condition not met")) := by
    intro r hr
    rw [hres, List.mem_map] at hr
    obtain ⟨p, -, rfl⟩ := hr
    exact getCounts_trichotomy p.1 t p.2
  have e1 : erroredStatus "Success" = false := by decide
  have e2 : erroredStatus "FUTSTK condition not met" = false := by decide
  have hscan : ∀ r ∈ results, resultScanned r =
      (r.status == "Success" || r.status == "FUTSTK condition not met") := by
    intro r hr
    rcases htri r hr with ⟨he, hs, hn⟩ | ⟨he, hsn⟩
    · simp [resultScanned, he, hs, hn]
    · rcases hsn with h | h <;> simp [resultScanned, he, h, e1, e2]
  have hsucc : ∀ r ∈ results, resultSuccess r = (r.status == "Success") := by
    intro r hr
    rcases htri r hr with ⟨he, hs, hn⟩ | ⟨he, hsn⟩
    · simp [resultSuccess, he, hs]
    · simp [resultSuccess, he]
  refine ⟨?_, ?_, ?_, ?_, ?_, ?_⟩
  · rw [fnoAggregate_eq]
    show results.countP resultScanned = _
    rw [List.countP_eq_length_filter]
    exact congrArg List.length (List.filter_congr hscan)
  · rw [fnoAggregate_eq]
    show results.countP resultSuccess = _
    rw [List.countP_eq_length_filter]
    exact congrArg List.length (List.filter_congr hsucc)
  · intro r hr
    rcases htri r hr with ⟨he, hs, hn⟩ | ⟨he, hsn⟩
    · rw [he]
      simp only [Bool.true_eq_false, false_iff]
      rintro (h | h)
      · exact hs h
      · exact hn h
    · rw [he]
      simp only [true_iff]
      exact hsn
  · intro symbol message
    exact ⟨rfl, by decide⟩
  · rw [fnoAggregate_eq]
    show results.countP resultSuccess ≤ results.countP resultScanned
    refine List.countP_mono_left fun r hr h => ?_
    simp only [resultSuccess, Bool.and_eq_true] at h
    exact h.1
  · rw [fnoAggregate_eq]
    show results.countP resultScanned ≤ inputs.length
    calc results.countP resultScanned ≤ results.length := List.countP_le_length _
      _ = inputs.length := by rw [hres, List.length_map]

/-- Witness for C3 on a concrete two-ticker input: one successful ticker
and one timed-out ticker; the timeout is excluded from both totals. -/
theorem scan_partition_spec_witness :
    (fnoAggregate
        ([("AAA", FetchOutcome.ok 200
            [⟨"FUTSTK", "27-Feb-2026", "", 100, 0, 0, 100, 0⟩]),
          ("BBB", FetchOutcome.fail "ECONNABORTED" "timeout of 10000ms exceeded")].map
          (fun p => getCountsForSymbol p.1 "27-Feb-2026" p.2))).1
      = (([("AAA", FetchOutcome.ok 200
            [⟨"FUTSTK", "27-Feb-2026", "", 100, 0, 0, 100, 0⟩]),
          ("BBB", FetchOutcome.fail "ECONNABORTED" "timeout of 10000ms exceeded")].map
          (fun p => getCountsForSymbol p.1 "27-Feb-2026" p.2)).filter fun r =>
            r.status == "Success" || r.status == "FUTSTK condition not met").length := by
  exact (scan_partition_spec _ "27-Feb-2026" _ rfl).1

/-! ## Sorting lemmas: a descending key sort by a stable sort keeps
equal-key entries in their pre-sort order -/

theorem keySort_sorted {α : Type} (key : α → ℕ) (l : List α) :
    (l.mergeSort fun a b => decide (key b ≤ key a)).Pairwise fun a b => key b ≤ key a := by
  have h := @List.sorted_mergeSort α (fun a b => decide (key b ≤ key a))
    (by
      intro a b c hab hbc
      simp only [decide_eq_true_eq] at *
      omega)
    (by
      intro a b
      rcases Nat.le_total (key b) (key a) with h | h <;> simp [h]) l
  exact h.imp (by intro a b hab; simpa using hab)

theorem keySort_filter_stable {α : Type} (key : α → ℕ) (l : List α) (k : ℕ) :
    (l.mergeSort fun a b => decide (key b ≤ key a)).filter (fun x => key x == k)
      = l.filter fun x => key x == k := by
  have htrans : ∀ (a b c : α), (decide (key b ≤ key a) : Bool) →
      (decide (key c ≤ key b) : Bool) → (decide (key c ≤ key a) : Bool) := by
    intro a b c hab hbc
    simp only [decide_eq_true_eq] at *
    omega
  have htotal : ∀ (a b : α), decide (key b ≤ key a) || decide (key a ≤ key b) := by
    intro a b
    rcases Nat.le_total (key b) (key a) with h | h <;> simp [h]
  have hpw : (l.filter fun x => key x == k).Pairwise
      fun a b => (decide (key b ≤ key a) : Bool) := by
    apply List.pairwise_of_forall_mem_list
    intro a ha b hb
    rw [List.mem_filter] at ha hb
    have h1 := ha.2
    have h2 := hb.2
    simp only [beq_iff_eq] at h1 h2
    simp [h1, h2]
  have hsub : List.Sublist (l.filter fun x => key x == k) l := List.filter_sublist l
  have h2 : List.Sublist (l.filter fun x => key x == k)
      (l.mergeSort fun a b => decide (key b ≤ key a)) :=
    List.sublist_mergeSort htrans htotal hpw hsub
  have h3 : ((l.mergeSort fun a b => decide (key b ≤ key a)).filter fun x => key x == k).Perm
      (l.filter fun x => key x == k) :=
    (List.mergeSort_perm l fun a b => decide (key b ≤ key a)).filter _
  have h4 : List.Sublist (l.filter fun x => key x == k)
      ((l.mergeSort fun a b => decide (key b ≤ key a)).filter fun x => key x == k) := by
    have h5 := h2.filter fun x => key x == k
    rwa [List.filter_eq_self.mpr fun a ha => (List.mem_filter.mp ha).2] at h5
  exact (h4.eq_of_length h3.length_eq.symm).symm

theorem pairwise_of_filter_key {α : Type} (key : α → ℕ) (P : α → α → Prop) :
    ∀ m : List α, (∀ k, (m.filter fun x => key x == k).Pairwise P) →
      m.Pairwise fun a b => key a = key b → P a b
  | [], _ => List.Pairwise.nil
  | x :: xs, h => by
    constructor
    · intro b hb hkey
      have hx := h (key x)
      rw [List.filter_cons_of_pos (by simp)] at hx
      exact (List.pairwise_cons.mp hx).1 b (List.mem_filter.mpr ⟨hb, by simp [hkey]⟩)
    · apply pairwise_of_filter_key key P xs
      intro k
      by_cases hk : key x = k
      · have hx := h k
        rw [List.filter_cons_of_pos (by simp [hk])] at hx
        exact (List.pairwise_cons.mp hx).2
      · have hx := h k
        rwa [List.filter_cons_of_neg (by simp [hk])] at hx

theorem keySort_ties_pairwise {α : Type} (key : α → ℕ) (P : α → α → Prop) (l : List α)
    (hP : l.Pairwise P) :
    (l.mergeSort fun a b => decide (key b ≤ key a)).Pairwise
      fun a b => key a = key b → P a b := by
  apply pairwise_of_filter_key key P
  intro k
  rw [keySort_filter_stable key l k]
  exact hP.filter _

/-- Claim C4: the bullish list is the group1 aggregate sorted descending
by the call-open-low count and truncated to 10, and the bearish list the
group2 aggregate sorted descending by put-open-low and truncated to 10;
the sort is stable, so entries with equal counts keep their pre-sort
order (the filter at any fixed count value is unchanged by the sort);
bullish entries carry (call-open-low, put-open-high) and bearish entries
(put-open-low, call-open-high) of their qualified result. -/
theorem ranking_spec :
    ∀ results : List SymbolResult,
      (((fnoAggregate results).2.2.1.mergeSort bullLE).take 10).Pairwise
          (fun a b => b.ceOL ≤ a.ceOL)
      ∧ (((fnoAggregate results).2.2.2.mergeSort bearLE).take 10).Pairwise
          (fun a b => b.peOL ≤ a.peOL)
      ∧ (((fnoAggregate results).2.2.1.mergeSort bullLE).take 10).length ≤ 10
      ∧ (((fnoAggregate results).2.2.2.mergeSort bearLE).take 10).length ≤ 10
      ∧ (∀ k : ℕ, ((fnoAggregate results).2.2.1.mergeSort bullLE).filter
            (fun e => e.ceOL == k)
          = (fnoAggregate results).2.2.1.filter fun e => e.ceOL == k)
      ∧ (∀ k : ℕ, ((fnoAggregate results).2.2.2.mergeSort bearLE).filter
            (fun e => e.peOL == k)
          = (fnoAggregate results).2.2.2.filter fun e => e.peOL == k)
      ∧ (fnoAggregate results).2.2.1 = (results.filter resultSuccess).map toBull
      ∧ (fnoAggregate results).2.2.2 = (results.filter resultSuccess).map toBear := by
  intro results
  have hb : bullLE = fun a b => decide (BullEntry.ceOL b ≤ BullEntry.ceOL a) := rfl
  have hbe : bearLE = fun a b => decide (BearEntry.peOL b ≤ BearEntry.peOL a) := rfl
  refine ⟨?_, ?_, ?_, ?_, ?_, ?_, ?_, ?_⟩
  · exact List.Pairwise.sublist (List.take_sublist 10 _)
      (by rw [hb]; exact keySort_sorted BullEntry.ceOL _)
  · exact List.Pairwise.sublist (List.take_sublist 10 _)
      (by rw [hbe]; exact keySort_sorted BearEntry.peOL _)
  · simp only [List.length_take]
    omega
  · simp only [List.length_take]
    omega
  · intro k
    rw [hb]
    exact keySort_filter_stable BullEntry.ceOL _ k
  · intro k
    rw [hbe]
    exact keySort_filter_stable BearEntry.peOL _ k
  · rw [fnoAggregate_eq]
  · rw [fnoAggregate_eq]

/-- Witness for C4 on a concrete one-result aggregate: the group1 list is
exactly the bullish projection of the single qualified result. -/
theorem ranking_spec_witness :
    (fnoAggregate [⟨"AAA", 2, 0, 0, 0, "Success"⟩]).2.2.1
      = ([(⟨"AAA", 2, 0, 0, 0, "Success"⟩ : SymbolResult)].filter resultSuccess).map toBull :=
  (ranking_spec [⟨"AAA", 2, 0, 0, 0, "Success"⟩]).2.2.2.2.2.2.1

/-! ## Universe-order lemmas -/

theorem strLE_mergeSort_sorted (l : List String) :
    (l.mergeSort strLE).Pairwise (· ≤ ·) := by
  have h := @List.sorted_mergeSort String strLE
    (by
      intro a b c hab hbc
      simp only [strLE, decide_eq_true_eq] at *
      exact le_trans hab hbc)
    (by
      intro a b
      simp only [strLE]
      rcases le_total a b with h | h <;> simp [h]) l
  exact h.imp (by intro a b hab; simpa [strLE] using hab)

theorem getCounts_symbol (s t : String) (o : FetchOutcome) :
    (getCountsForSymbol s t o).symbol = s := by
  rcases o with ⟨st, records⟩ | ⟨c, m⟩
  · simp only [getCountsForSymbol]
    split_ifs <;> rfl
  · rfl

/-- Claim C10: the discovered universe is the filtered (object rows with
non-empty symbol), trimmed, ascending-sorted symbol list; evaluation and
aggregation preserve that order, and the ranking sort is stable, so in
the truncated bullish and bearish lists entries with equal counts appear
in ascending symbol order, for every universe and record data. -/
theorem universe_order_ties_spec :
    ∀ (rows : List UnderlyingRow) (fetch : String → FetchOutcome) (targetExpiry : String),
      fetchFnoSymbols (UniverseOutcome.ok 200 rows) = Except.ok (fnoSymbolsOf rows)
      ∧ (fnoSymbolsOf rows).Pairwise (· ≤ ·)
      ∧ (((fnoAggregate ((fnoSymbolsOf rows).map fun s =>
              getCountsForSymbol s targetExpiry (fetch s))).2.2.1.mergeSort
            bullLE).take 10).Pairwise
          (fun a b => a.ceOL = b.ceOL → a.symbol ≤ b.symbol)
      ∧ (((fnoAggregate ((fnoSymbolsOf rows).map fun s =>
              getCountsForSymbol s targetExpiry (fetch s))).2.2.2.mergeSort
            bearLE).take 10).Pairwise
          (fun a b => a.peOL = b.peOL → a.symbol ≤ b.symbol) := by
  intro rows fetch t
  have hsym : (fnoSymbolsOf rows).Pairwise (· ≤ ·) := by
    simp only [fnoSymbolsOf]
    exact strLE_mergeSort_sorted _
  have hres : ((fnoSymbolsOf rows).map fun s =>
      getCountsForSymbol s t (fetch s)).Pairwise
      fun a b => a.symbol ≤ b.symbol := by
    refine List.Pairwise.map _ ?_ hsym
    intro a b hab
    rw [getCounts_symbol, getCounts_symbol]
    exact hab
  refine ⟨rfl, hsym, ?_, ?_⟩
  · rw [fnoAggregate_eq]
    refine List.Pairwise.sublist (List.take_sublist 10 _) ?_
    show ((((fnoSymbolsOf rows).map fun s =>
        getCountsForSymbol s t (fetch s)).filter resultSuccess).map
          toBull).mergeSort bullLE |>.Pairwise _
    have hb : bullLE = fun a b => decide (BullEntry.ceOL b ≤ BullEntry.ceOL a) := rfl
    rw [hb]
    apply keySort_ties_pairwise
    refine List.Pairwise.map _ ?_ (hres.filter resultSuccess)
    intro a b hab
    exact hab
  · rw [fnoAggregate_eq]
    refine List.Pairwise.sublist (List.take_sublist 10 _) ?_
    show ((((fnoSymbolsOf rows).map fun s =>
        getCountsForSymbol s t (fetch s)).filter resultSuccess).map
          toBear).mergeSort bearLE |>.Pairwise _
    have hbe : bearLE = fun a b => decide (BearEntry.peOL b ≤ BearEntry.peOL a) := rfl
    rw [hbe]
    apply keySort_ties_pairwise
    refine List.Pairwise.map _ ?_ (hres.filter resultSuccess)
    intro a b hab
    exact hab

/-- Witness for C10 at a concrete one-row universe: the universe fetch
returns the filtered, trimmed, sorted symbol list. -/
theorem universe_order_ties_spec_witness :
    fetchFnoSymbols (UniverseOutcome.ok 200 [UnderlyingRow.obj (some " AAA ")])
      = Except.ok (fnoSymbolsOf [UnderlyingRow.obj (some " AAA ")]) :=
  (universe_order_ties_spec [UnderlyingRow.obj (some " AAA ")]
    (fun _ => FetchOutcome.fail "x" "y") "27-Feb-2026").1

end NseScanner
